import Mathlib

set_option maxRecDepth 100000

/-!
Verification development for the godub audio library (segment.go, silence.go,
the concurrent silence detector, and the audioop sample-arithmetic layer).

Modelling conventions:
* a PCM byte buffer is a `List Nat` whose entries are byte values (0..255);
* Go `float64` arithmetic is modelled exactly over the rational type `Q`
  defined below (every computation the claims exercise stays far away from
  float rounding boundaries);
* Go `int`/`int64` become `Int`, Go unsigned sizes become `Nat`;
* a Go function that can panic is modelled with an error/`Option` result whose
  error case is documented at the site of the panic;
* `Volume.ToRatio` is the only transcendental computation (`10^(dB/20)`);
  every function that consumes such a converted value takes the converted
  rational (`Q`) value as an explicit parameter, mirroring how the Go code computes
  the conversion once and then uses the plain number.
-/

namespace Godub

/-- Decidable equality for `Except` results, used to state and evaluate the
concrete executions. -/
instance {ε α : Type} [DecidableEq ε] [DecidableEq α] : DecidableEq (Except ε α) :=
  fun a b =>
    match a, b with
    | .error e1, .error e2 =>
      if h : e1 = e2 then .isTrue (by rw [h]) else .isFalse (by simp [h])
    | .error _, .ok _ => .isFalse (by simp)
    | .ok _, .error _ => .isFalse (by simp)
    | .ok x, .ok y =>
      if h : x = y then .isTrue (by rw [h]) else .isFalse (by simp [h])

/-- Binary-search worker for the floor integer square root, with invariant
`lo² ≤ n < hi²`; the structural fuel lets both the elaborator and the kernel
evaluate it. -/
def intSqrtGo (n : Nat) : Nat → Nat → Nat → Nat
  | 0, lo, _ => lo
  | fuel + 1, lo, hi =>
    if hi ≤ lo + 1 then lo
    else
      let mid := (lo + hi) / 2
      if mid * mid ≤ n then intSqrtGo n fuel mid hi else intSqrtGo n fuel lo mid

/-- Floor integer square root (the value C's `(int)sqrt((double)x)` computes
for the magnitudes at hand). -/
def intSqrt (n : Nat) : Nat :=
  intSqrtGo n (n + 2) 0 (n + 1)

/-- Exact rational numbers used to model Go `float64` arithmetic.  The
denominator is kept positive by construction and fractions are not reduced,
so every operation is a few integer multiplications that both the elaborator
and the kernel evaluate directly.  (Mathlib's `ℚ` is unusable here: its
arithmetic is `@[irreducible]`, which blocks `decide`.)  Note that the
derived `DecidableEq` is representation equality; the code under
verification never compares two computed rationals for equality, and theorem
statements always spell out the exact representation the functions build. -/
structure Q where
  num : Int
  den : Nat
  deriving DecidableEq, Repr

namespace Q

/-- Embed an integer. -/
def ofInt (n : Int) : Q := ⟨n, 1⟩

/-- Embed a natural number. -/
def ofNat (n : Nat) : Q := ⟨(n : Int), 1⟩

/-- Addition (cross-multiplied, not reduced). -/
def add (a b : Q) : Q := ⟨a.num * (b.den : Int) + b.num * (a.den : Int), a.den * b.den⟩

/-- Negation. -/
def neg (a : Q) : Q := ⟨-a.num, a.den⟩

/-- Subtraction. -/
def sub (a b : Q) : Q := add a (neg b)

/-- Multiplication. -/
def mul (a b : Q) : Q := ⟨a.num * b.num, a.den * b.den⟩

/-- Division; a zero divisor yields 0 (no modelled code path divides by
zero). -/
def div (a b : Q) : Q :=
  if b.num = 0 then ⟨0, 1⟩
  else if b.num < 0 then ⟨-(a.num * (b.den : Int)), a.den * b.num.natAbs⟩
  else ⟨a.num * (b.den : Int), a.den * b.num.natAbs⟩

/-- Value order (denominators are positive by construction). -/
def le (a b : Q) : Prop := a.num * (b.den : Int) ≤ b.num * (a.den : Int)

/-- Strict value order. -/
def lt (a b : Q) : Prop := a.num * (b.den : Int) < b.num * (a.den : Int)

instance : Add Q := ⟨Q.add⟩
instance : Neg Q := ⟨Q.neg⟩
instance : Sub Q := ⟨Q.sub⟩
instance : Mul Q := ⟨Q.mul⟩
instance : Div Q := ⟨Q.div⟩
instance : LE Q := ⟨Q.le⟩
instance : LT Q := ⟨Q.lt⟩
instance (n : Nat) : OfNat Q n := ⟨Q.ofNat n⟩

instance (a b : Q) : Decidable (a ≤ b) :=
  inferInstanceAs (Decidable (a.num * (b.den : Int) ≤ b.num * (a.den : Int)))

instance (a b : Q) : Decidable (a < b) :=
  inferInstanceAs (Decidable (a.num * (b.den : Int) < b.num * (a.den : Int)))

/-- Floor of the represented value (Euclidean division by the positive
denominator). -/
def floor (a : Q) : Int := Int.ediv a.num (a.den : Int)

end Q

/-- Go `math.Round`: round half away from zero. -/
def goRound (x : Q) : Int :=
  if x < 0 then -((-x + ⟨1, 2⟩).floor) else (x + ⟨1, 2⟩).floor

/-- Go conversion `int(f)` of a `float64`: truncation toward zero. -/
def goTrunc (x : Q) : Int :=
  if x < 0 then -((-x).floor) else x.floor

/-- Fuel-driven worker for `chunkList`; the wrapper passes the list length as
fuel, which suffices because every step drops at least one element. -/
def chunkListAux (w : Nat) : Nat → List Nat → List (List Nat)
  | _, [] => []
  | 0, _ :: _ => []
  | fuel + 1, l => l.take w :: chunkListAux w fuel (l.drop w)

/-- Split a byte buffer into consecutive groups of `w` bytes. -/
def chunkList (w : Nat) (l : List Nat) : List (List Nat) :=
  if w = 0 then [] else chunkListAux w l.length l

/-- Little-endian decode of a group of bytes to an unsigned value. -/
def leDecode (l : List Nat) : Nat :=
  l.foldr (fun b acc => b + 256 * acc) 0

/-- Interpret an unsigned `w`-byte value as a signed (two's complement) value. -/
def toSigned (w : Nat) (u : Nat) : Int :=
  if u < 2 ^ (8 * w - 1) then (u : Int) else (u : Int) - 2 ^ (8 * w)

/-- Little-endian encode of an integer into `w` bytes (modulo `2^(8w)`). -/
def encodeLE (w : Nat) (v : Int) : List Nat :=
  let u := (v % (2 ^ (8 * w) : Int)).toNat
  (List.range w).map (fun i => u / 256 ^ i % 256)

/-- Saturate a sample value to the signed range of width `w`. -/
def saturate (w : Nat) (v : Int) : Int :=
  max (-(2 ^ (8 * w - 1))) (min v (2 ^ (8 * w - 1) - 1))

/-- Decode a buffer into its signed samples of width `w`. -/
def samples (w : Nat) (buf : List Nat) : List Int :=
  (chunkList w buf).map (fun c => toSigned w (leDecode c))

/-- Map a per-sample transform over a buffer, re-encoding at width `w`. -/
def sampleMap (w : Nat) (f : Int → Int) (buf : List Nat) : List Nat :=
  ((chunkList w buf).map (fun c => encodeLE w (f (toSigned w (leDecode c))))).flatten

namespace audioop

/-- Errors of the sample-arithmetic layer.

Modelled from the spec: the audioop package is not under src/; §4.1 of the
spec declares every operation to fail with `InvalidWidth`/`MalformedBuffer`
when the width is outside {1,2,4} or the buffer length is not a multiple of
the width, and `Add` to fail when the two buffers differ in length. -/
inductive AError where
  | invalidWidth
  | malformedBuffer
  | lengthMismatch
  deriving DecidableEq, Repr

/-- Widths accepted by the arithmetic layer. -/
def validWidth (w : Nat) : Prop := w = 1 ∨ w = 2 ∨ w = 4

instance (w : Nat) : Decidable (validWidth w) := by
  unfold validWidth; infer_instance

/-- Modelled from the spec: `Mul(buf, width, factor)` scales every sample by
`factor`, rounds to nearest, and saturates to the width's signed range. -/
def Mul (buf : List Nat) (w : Nat) (factor : Q) : Except AError (List Nat) :=
  if ¬ validWidth w then .error .invalidWidth
  else if buf.length % w ≠ 0 then .error .malformedBuffer
  else .ok (sampleMap w (fun s => saturate w (goRound (Q.ofInt s * factor))) buf)

/-- Modelled from the spec: `Add(bufA, bufB, width)` adds samplewise with
saturation and fails when the buffers differ in length. -/
def Add (a b : List Nat) (w : Nat) : Except AError (List Nat) :=
  if ¬ validWidth w then .error .invalidWidth
  else if a.length % w ≠ 0 then .error .malformedBuffer
  else if a.length ≠ b.length then .error .lengthMismatch
  else .ok ((((chunkList w a).zip (chunkList w b)).map
    (fun p => encodeLE w (saturate w
      (toSigned w (leDecode p.1) + toSigned w (leDecode p.2))))).flatten)

/-- Modelled from the spec: `Bias(buf, width, bias)` adds `bias` to every
sample modulo `2^(8·width)` (wraps, does not saturate). -/
def Bias (buf : List Nat) (w : Nat) (bias : Int) : Except AError (List Nat) :=
  if ¬ validWidth w then .error .invalidWidth
  else if buf.length % w ≠ 0 then .error .malformedBuffer
  else .ok (((chunkList w buf).map
    (fun c => encodeLE w ((leDecode c : Int) + bias))).flatten)

/-- Modelled from the spec: `Reverse(buf, width)` reverses the order of the
width-sized groups, not the bytes inside a group. -/
def Reverse (buf : List Nat) (w : Nat) : Except AError (List Nat) :=
  if ¬ validWidth w then .error .invalidWidth
  else if buf.length % w ≠ 0 then .error .malformedBuffer
  else .ok (chunkList w buf).reverse.flatten

/-- Modelled from the spec: `Max(buf, width)` is the maximum absolute sample
magnitude; an empty buffer yields 0. -/
def Max (buf : List Nat) (w : Nat) : Except AError Nat :=
  if ¬ validWidth w then .error .invalidWidth
  else if buf.length % w ≠ 0 then .error .malformedBuffer
  else .ok (((samples w buf).map (fun s => s.natAbs)).foldr max 0)

/-- Modelled from the spec: `RMS(buf, width)` is `sqrt(sum(sample²)/count)`
truncated to an integer (the Go function returns an int that callers convert
to float64); the spec (§4.2) states the arithmetic layer's RMS accumulation
is defined only for widths ≥ 2, so width 1 is rejected as an invalid width.
An empty buffer yields 0. -/
def RMS (buf : List Nat) (w : Nat) : Except AError Nat :=
  if ¬ (w = 2 ∨ w = 4) then .error .invalidWidth
  else if buf.length % w ≠ 0 then .error .malformedBuffer
  else
    let count := buf.length / w
    if count = 0 then .ok 0
    else .ok (intSqrt ((((samples w buf).map (fun s => s * s)).foldr (· + ·) 0).toNat / count))

/-- Modelled from the spec: `Lin2Lin(buf, srcWidth, dstWidth)` widens by
shifting sample values into the high-order bytes and narrows by dropping
low-order bytes (arithmetic shift), preserving sign. -/
def Lin2Lin (buf : List Nat) (sw dw : Nat) : Except AError (List Nat) :=
  if ¬ validWidth sw then .error .invalidWidth
  else if ¬ validWidth dw then .error .invalidWidth
  else if buf.length % sw ≠ 0 then .error .malformedBuffer
  else .ok (((chunkList sw buf).map (fun c =>
    let v := toSigned sw (leDecode c)
    encodeLE dw (if sw ≤ dw then v * 2 ^ (8 * (dw - sw)) else v / 2 ^ (8 * (sw - dw))))).flatten)

/-- Modelled from the spec: `ToStereo(buf, width, fac1, fac2)` duplicates the
mono channel into two channels with independent gains, saturating. -/
def ToStereo (buf : List Nat) (w : Nat) (fac1 fac2 : Q) : Except AError (List Nat) :=
  if ¬ validWidth w then .error .invalidWidth
  else if buf.length % w ≠ 0 then .error .malformedBuffer
  else .ok (((chunkList w buf).map (fun c =>
    let v := toSigned w (leDecode c)
    encodeLE w (saturate w (goRound (Q.ofInt v * fac1))) ++
      encodeLE w (saturate w (goRound (Q.ofInt v * fac2))))).flatten)

/-- Modelled from the spec: `ToMono(buf, width, fac1, fac2)` combines the two
channels of each frame with independent gains, saturating. -/
def ToMono (buf : List Nat) (w : Nat) (fac1 fac2 : Q) : Except AError (List Nat) :=
  if ¬ validWidth w then .error .invalidWidth
  else if buf.length % (2 * w) ≠ 0 then .error .malformedBuffer
  else .ok (((chunkList (2 * w) buf).map (fun fr =>
    let l := toSigned w (leDecode (fr.take w))
    let r := toSigned w (leDecode (fr.drop w))
    encodeLE w (saturate w (goRound (Q.ofInt l * fac1 + Q.ofInt r * fac2))))).flatten)

/-- Carried resampler state: the fixed-point accumulator and the
(previous, current) sample memory per channel. -/
structure State where
  d : Int
  samps : List (Int × Int)
  deriving DecidableEq, Repr

/-- Modelled from the spec: `Ratecv` reduces the two rates by their gcd and
drives a fixed-point accumulator `d` (starting at `-outRate`); consuming an
input frame adds `outRate` to `d`, and while `d ≥ 0` an output frame is
emitted as the weighted average `(weightA·prev + weightB·cur)/(weightA+weightB)`
per channel with `d` decreased by `inRate` per emission.  (This bookkeeping
reproduces the repository's own regression test, which expects a final
accumulator of -2 when converting one 16000 Hz stereo frame to 24000 Hz.) -/
def ratecvFrames (ir orr : Int) (wA wB : Q) :
    List (List Int) → Int → List (Int × Int) → (List (List Int) × Int × List (Int × Int))
  | [], d, samps => ([], d, samps)
  | fr :: rest, d, samps =>
    let samps2 := (samps.zip fr).map (fun p => (p.1.2, p.2))
    let d2 := d + orr
    let emitCount := if d2 < 0 then 0 else (d2 / ir).toNat + 1
    let outFrame := samps2.map (fun p =>
      goRound ((Q.ofInt p.1 * wA + Q.ofInt p.2 * wB) / (wA + wB)))
    let d3 := d2 - emitCount * ir
    let (outRest, dFin, sampsFin) := ratecvFrames ir orr wA wB rest d3 samps2
    (List.replicate emitCount outFrame ++ outRest, dFin, sampsFin)

/-- Modelled from the spec: linear-interpolation rate conversion. -/
def Ratecv (buf : List Nat) (w ch : Nat) (inRate outRate : Nat) (wA wB : Q) :
    Except AError (List Nat × State) :=
  if ¬ validWidth w then .error .invalidWidth
  -- (wA + wB).num = 0 is the value-level zero test for the weight sum
  else if ch = 0 ∨ inRate = 0 ∨ outRate = 0 ∨ (wA + wB).num = 0 then .error .malformedBuffer
  else if buf.length % (w * ch) ≠ 0 then .error .malformedBuffer
  else
    let g := Nat.gcd inRate outRate
    let ir := (inRate / g : Nat)
    let orr := (outRate / g : Nat)
    let frames := (chunkList (w * ch) buf).map (fun fr => samples w fr)
    let init : List (Int × Int) := List.replicate ch (0, 0)
    let (outFrames, dFin, sampsFin) :=
      ratecvFrames (ir : Int) (orr : Int) wA wB frames (-(orr : Int)) init
    .ok ((outFrames.map (fun fr => (fr.map (fun v => encodeLE w (saturate w v))).flatten)).flatten,
      { d := dFin, samps := sampsFin })

end audioop

/-- Errors surfaced by the segment layer.  In Go these are `*AudioSegmentError`
values (plus runtime panics, modelled here as dedicated constructors). -/
inductive GoError where
  /-- The `NewAudioSegmentError` from `Slice` (start > end, negative bounds, or a
  silence-fill shortfall beyond the 2 ms tolerance). -/
  | rangeError
  /-- A Go runtime panic raised by an out-of-range slice expression or the
  division by a zero frame width inside `Slice`. -/
  | slicePanic
  /-- The `NewAudioSegmentError("invalid channels")` from `ForkWithChannels`. -/
  | invalidChannels
  /-- The nil-function-pointer dereference in `ForkWithChannels` when the
  segment's own channel count is outside {1,2}. -/
  | nilFuncPanic
  /-- The Go overlay loop spins forever (loop-to-end with an empty overlay
  buffer and a non-empty tail). -/
  | nonTermination
  /-- An arithmetic-layer error returned unchanged through a segment method. -/
  | aop (e : audioop.AError)
  /-- The `InvalidFile` from `checkEmptyAudio`. -/
  | emptyAudio
  deriving DecidableEq, Repr

/-- The `AudioSegment` (segment.go): an immutable PCM buffer plus its format.
The memoized `rms` pointer is omitted: it caches a pure function of the
immutable value and is unobservable in the value semantics. -/
structure AudioSegment where
  sampleWidth : Nat
  frameRate : Nat
  frameWidth : Nat
  channels : Nat
  data : List Nat
  deriving DecidableEq, Repr

/-- The `NewAudioSegment` (segment.go).  For declared width 3 the Go code
allocates a buffer of `len/3 + len` zero bytes and then writes each
sign-extended sample through `bytes.NewBuffer(buf[offset:])`; that Buffer's
`Write` *appends after* the existing bytes and therefore reallocates, so the
original `buf` is never modified and the stored data is all zero bytes (the
attempted write would also have placed the padding byte first, i.e. as the
least-significant byte).  The sample width is set to 4 but the frame width is
left untouched.  When the data length is not a multiple of 3 the Go loop
indexes past the end and panics; no claim exercises that case.  Every other
width stores the buffer unchanged. -/
def NewAudioSegment (data : List Nat) (sw fr fw ch : Nat) : AudioSegment :=
  if sw = 3 then
    { sampleWidth := 4, frameRate := fr, frameWidth := fw, channels := ch,
      data := List.replicate (data.length / 3 + data.length) 0 }
  else
    { sampleWidth := sw, frameRate := fr, frameWidth := fw, channels := ch, data := data }

namespace AudioSegment

/-- The `derive` with option overrides: Go's `derive` first calls
`NewAudioSegment` with the parent's parameters (running the width-3
normalization on the parent's declared width) and only then applies the
overriding options to the result. -/
def deriveOpts (seg : AudioSegment) (data : List Nat)
    (sw fr fw ch : Option Nat) : AudioSegment :=
  let base := NewAudioSegment data seg.sampleWidth seg.frameRate seg.frameWidth seg.channels
  { base with
    sampleWidth := sw.getD base.sampleWidth
    frameRate := fr.getD base.frameRate
    frameWidth := fw.getD base.frameWidth
    channels := ch.getD base.channels }

/-- The `derive` without overrides. -/
def derive (seg : AudioSegment) (data : List Nat) : AudioSegment :=
  seg.deriveOpts data none none none none

/-- The `FrameCount` (segment.go): integer division of the byte length by the
frame width (the Go code divides the ints first, then converts to float64). -/
def FrameCount (seg : AudioSegment) : Nat :=
  if seg.frameWidth > 0 then seg.data.length / seg.frameWidth else 0

/-- The `Duration` (segment.go): `round(1000·frameCount/frameRate)` ms, 0 when the
frame rate is 0. -/
def Duration (seg : AudioSegment) : Int :=
  if seg.frameRate = 0 then 0
  else goRound ((1000 * Q.ofNat seg.FrameCount) / Q.ofNat seg.frameRate)

/-- The `FrameCountIn` (segment.go): clamp `ms` to the duration, then
`ms · frameRate / 1000` as a float. -/
def FrameCountIn (seg : AudioSegment) (ms : Int) : Q :=
  let d := seg.Duration
  let ms2 := if ms > d then d else ms
  Q.ofInt ms2 * (Q.ofNat seg.frameRate / 1000)

/-- The `parsePosition` (segment.go): `int(FrameCountIn(ms))`. -/
def parsePosition (seg : AudioSegment) (ms : Int) : Int :=
  goTrunc (seg.FrameCountIn ms)

/-- A Go slice expression `data[i:j]`: defined when `0 ≤ i ≤ j ≤ len(data)`,
otherwise the program panics.  (The Go buffers the segment layer slices own
their whole backing array, so capacity equals length.) -/
def goSlice (data : List Nat) (i j : Int) : Option (List Nat) :=
  if 0 ≤ i ∧ i ≤ j ∧ j ≤ (data.length : Int) then
    some ((data.take j.toNat).drop i.toNat)
  else none

/-- The `Slice` (segment.go).  Validates and clamps the bounds, converts them to
frame-aligned byte indices, and extracts the bytes.  When the extracted data
falls short of the expected length the code intends to pad with silence, but
the padding branch runs only when `audioop.Mul` *fails* (`if silence, err :=
...; err != nil`), and in that case `silence` is nil so nothing is appended:
the returned data is the unpadded extract in every non-error case.  A
shortfall beyond `FrameCountIn(2)` frames is a range error. -/
def Slice (seg : AudioSegment) (start fin : Int) : Except GoError AudioSegment :=
  if start > fin then .error .rangeError
  else if start < 0 ∨ fin < 0 then .error .rangeError
  else
    let d := seg.Duration
    let start2 := if start > d then d else start
    let fin2 := if fin > d then d else fin
    let si := seg.parsePosition start2 * (seg.frameWidth : Int)
    let eiRaw := seg.parsePosition fin2 * (seg.frameWidth : Int)
    let expected := eiRaw - si
    let ei := if eiRaw > (seg.data.length : Int) then (seg.data.length : Int) else eiRaw
    match goSlice seg.data si ei with
    | none => .error .slicePanic
    | some dat =>
      if seg.frameWidth = 0 then .error .slicePanic  -- Go divides by frameWidth here
      else
        let missing := (expected - (dat.length : Int)) / (seg.frameWidth : Int)
        if missing > 0 then
          if Q.ofInt missing > seg.FrameCountIn 2 then .error .rangeError
          else
            match audioop.Mul (dat.take seg.frameWidth) seg.sampleWidth 0 with
            | .ok _ => .ok (seg.derive dat)       -- err == nil: the padding branch is skipped
            | .error _ => .ok (seg.derive dat)    -- err != nil: silence is nil, repeat appends nothing
        else .ok (seg.derive dat)

/-- The non-width-1 arm of `RMS` (segment.go): `audioop.RMS` on the raw data,
0 on error. -/
def rmsAux (seg : AudioSegment) : Nat :=
  match audioop.RMS seg.data seg.sampleWidth with
  | .ok r => r
  | .error _ => 0

/-- The `Max` (segment.go): `audioop.Max` on the raw data, 0 on error (the Go
method has no error return; its own doc comment states it returns 0 on
error). -/
def Max (seg : AudioSegment) : Q :=
  match audioop.Max seg.data seg.sampleWidth with
  | .ok r => Q.ofNat r
  | .error _ => 0

/-- The `ForkWithSampleWidth` (segment.go): identity when the width already
matches; otherwise bias width-1 data by -128, run `Lin2Lin` on non-empty
data, bias back by +128 when the target is width 1, and derive with the new
sample width and frame width. -/
def ForkWithSampleWidth (seg : AudioSegment) (sw : Nat) : Except GoError AudioSegment :=
  if sw = seg.sampleWidth then .ok seg
  else
    match (if seg.sampleWidth = 1 then audioop.Bias seg.data 1 (-128) else .ok seg.data) with
    | .error e => .error (.aop e)
    | .ok data1 =>
      match (if data1.length > 0 then audioop.Lin2Lin data1 seg.sampleWidth sw else .ok data1) with
      | .error e => .error (.aop e)
      | .ok data2 =>
        match (if sw = 1 then audioop.Bias data2 1 128 else .ok data2) with
        | .error e => .error (.aop e)
        | .ok data3 =>
          .ok (seg.deriveOpts data3 (some sw) none (some (seg.channels * sw)) none)

/-- The `RMS` (segment.go): width-1 segments are first forked to width 2 (whose
result has sample width 2, so the recursive Go call takes the non-1 branch,
inlined here as `rmsAux`); any error yields 0, as the Go doc comment states. -/
def RMS (seg : AudioSegment) : Nat :=
  if seg.sampleWidth = 1 then
    match seg.ForkWithSampleWidth 2 with
    | .error _ => 0
    | .ok r => rmsAux r
  else rmsAux seg

/-- The `ForkWithFrameRate` (segment.go): identity on a matching rate, otherwise
`audioop.Ratecv` (on non-empty data) with weights 1 and 0. -/
def ForkWithFrameRate (seg : AudioSegment) (fr : Nat) : Except GoError AudioSegment :=
  if fr = seg.frameRate then .ok seg
  else
    match (if seg.data.length > 0
           then (audioop.Ratecv seg.data seg.sampleWidth seg.channels seg.frameRate fr 1 0).map
             Prod.fst
           else .ok seg.data) with
    | .error e => .error (.aop e)
    | .ok conv => .ok (seg.deriveOpts conv none (some fr) none none)

/-- The `ForkWithChannels` (segment.go): validates only the *target* channel
count against {1,2}; a matching count returns the segment unchanged; the
1→2 / 2→1 pairs route through `ToStereo`/`ToMono`; for any other pair (a
segment whose own channel count is outside {1,2}) `convertFunc` stays nil and
the Go code dereferences nil. -/
def ForkWithChannels (seg : AudioSegment) (ch : Nat) : Except GoError AudioSegment :=
  if ¬ (ch = 1 ∨ ch = 2) then .error .invalidChannels
  else if ch = seg.channels then .ok seg
  else if ch = 2 ∧ seg.channels = 1 then
    match audioop.ToStereo seg.data seg.sampleWidth 1 1 with
    | .error e => .error (.aop e)
    | .ok conv => .ok (seg.deriveOpts conv none none (some (seg.frameWidth * 2)) (some ch))
  else if ch = 1 ∧ seg.channels = 2 then
    match audioop.ToMono seg.data seg.sampleWidth (1/2) (1/2) with
    | .error e => .error (.aop e)
    | .ok conv => .ok (seg.deriveOpts conv none none (some (seg.frameWidth / 2)) (some ch))
  else .error .nilFuncPanic

/-- The `ApplyGain` (segment.go): `audioop.Mul` by the volume's linear amplitude
factor (the caller-side `ToRatio` conversion is passed in as `fac`). -/
def ApplyGain (seg : AudioSegment) (fac : Q) : Except GoError AudioSegment :=
  match audioop.Mul seg.data seg.sampleWidth fac with
  | .error e => .error (.aop e)
  | .ok d => .ok (seg.derive d)

/-- The `Reverse` (segment.go): frame-order reversal via the arithmetic layer. -/
def Reverse (seg : AudioSegment) : Except GoError AudioSegment :=
  match audioop.Reverse seg.data seg.sampleWidth with
  | .error e => .error (.aop e)
  | .ok d => .ok (seg.derive d)

/-- The maxima `sync` computes over its operands' channels, frame rates and
sample widths. -/
def maxParams (l : List AudioSegment) : Nat × Nat × Nat :=
  (l.foldl (fun a s => max a s.channels) 0,
   l.foldl (fun a s => max a s.frameRate) 0,
   l.foldl (fun a s => max a s.sampleWidth) 0)

/-- One segment's conversion inside `sync` (segment.go): fork to the maximum
channels, then frame rate, then sample width, propagating the first error. -/
def syncSeg (m : Nat × Nat × Nat) (seg : AudioSegment) : Except GoError AudioSegment :=
  match seg.ForkWithChannels m.1 with
  | .error e => .error e
  | .ok s1 =>
    match s1.ForkWithFrameRate m.2.1 with
    | .error e => .error e
    | .ok s2 => s2.ForkWithSampleWidth m.2.2

/-- The `sync` (segment.go) over a list of segments. -/
def syncList (m : Nat × Nat × Nat) : List AudioSegment → Except GoError (List AudioSegment)
  | [] => .ok []
  | s :: rest =>
    match syncSeg m s with
    | .error e => .error e
    | .ok s2 =>
      match syncList m rest with
      | .error e => .error e
      | .ok rest2 => .ok (s2 :: rest2)

/-- The `Append` (segment.go): sync the receiver and the arguments to the shared
maxima, then concatenate the synced buffers and derive from the receiver. -/
def Append (seg : AudioSegment) (others : List AudioSegment) : Except GoError AudioSegment :=
  let combined := seg :: others
  match syncList (maxParams combined) combined with
  | .error e => .error e
  | .ok results => .ok (seg.derive (results.map (fun r => r.data)).flatten)

/-- The `OverlayConfig` (segment.go).  `gainFac` carries the caller-side linear
amplitude factor `GainDuringOverlay.ToRatio(true)` used by the `Mul` call;
the dB value itself is kept for the `> 0` test the Go code performs. -/
structure OverlayConfig where
  position : Int
  loopToEnd : Bool
  loopCount : Int
  gainDuringOverlay : Q
  gainFac : Q

/-- One pass of the overlay mixing: optionally pre-scale the base chunk by
the gain factor, then `audioop.Add` the overlay bytes onto it. -/
def overlayMix (w : Nat) (useGain : Bool) (gainFac : Q) (chunk o2 : List Nat) :
    Except GoError (List Nat) :=
  if useGain then
    match audioop.Mul chunk w gainFac with
    | .error e => .error (.aop e)
    | .ok adjusted =>
      match audioop.Add adjusted o2 w with
      | .error e => .error (.aop e)
      | .ok r => .ok r
  else
    match audioop.Add chunk o2 w with
    | .error e => .error (.aop e)
    | .ok r => .ok r

/-- The overlay loop for a positive loop counter (Go: `for i := lc; i != 0;
i -= 1`; a pass whose overlay covers the remaining tail truncates the overlay
and forces the counter to exit).  Returns the mixed bytes followed by the
untouched tail remainder. -/
def overlayLoopPos (w : Nat) (useGain : Bool) (gainFac : Q) (rData oData : List Nat) :
    Nat → Nat → Except GoError (List Nat)
  | 0, pos => .ok (rData.drop pos)
  | n + 1, pos =>
    let remaining := rData.length - pos
    if oData.length ≥ remaining then
      let o2 := oData.take remaining
      (overlayMix w useGain gainFac ((rData.drop pos).take o2.length) o2).map
        (fun mixed => mixed ++ rData.drop (pos + o2.length))
    else
      match overlayMix w useGain gainFac ((rData.drop pos).take oData.length) oData with
      | .error e => .error e
      | .ok mixed =>
        (overlayLoopPos w useGain gainFac rData oData n (pos + oData.length)).map
          (fun rest => mixed ++ rest)

/-- Fuel-driven worker for the loop-to-end overlay loop; the wrapper passes
enough fuel (one more than the tail length) that the fuel-exhaustion arm is
never reached, since every recursive pass advances the offset by at least one
byte. -/
def overlayLoopInfAux (w : Nat) (useGain : Bool) (gainFac : Q) (rData oData : List Nat) :
    Nat → Nat → Except GoError (List Nat)
  | 0, _ => .error .nonTermination
  | fuel + 1, pos =>
    let remaining := rData.length - pos
    if oData.length ≥ remaining then
      let o2 := oData.take remaining
      (overlayMix w useGain gainFac ((rData.drop pos).take o2.length) o2).map
        (fun mixed => mixed ++ rData.drop (pos + o2.length))
    else if oData.length = 0 then .error .nonTermination
    else
      match overlayMix w useGain gainFac ((rData.drop pos).take oData.length) oData with
      | .error e => .error e
      | .ok mixed =>
        (overlayLoopInfAux w useGain gainFac rData oData fuel (pos + oData.length)).map
          (fun rest => mixed ++ rest)

/-- The overlay loop for a negative loop counter (loop-to-end).  The Go
counter runs -1, -2, ... and only a truncating pass terminates the loop; with
an empty overlay buffer and a non-empty remaining tail the Go loop therefore
never terminates (modelled by the `nonTermination` error). -/
def overlayLoopInf (w : Nat) (useGain : Bool) (gainFac : Q) (rData oData : List Nat)
    (pos : Nat) : Except GoError (List Nat) :=
  overlayLoopInfAux w useGain gainFac rData oData (rData.length + 1) pos

/-- The `Overlay` (segment.go) for a non-nil overlay segment.  Normalizes the
loop count (0 means 1; loop-to-end forces -1), syncs both segments to their
shared maxima (Go's variadic `sync`, which forks each operand in order and
returns the first error), splits the base at the position, runs the mixing
loop over the tail, and derives the head ++ mixed ++ remainder from the
synced base. -/
def Overlay (seg other : AudioSegment) (cfg : OverlayConfig) : Except GoError AudioSegment :=
  let lc0 : Int := if cfg.loopCount = 0 then 1 else cfg.loopCount
  let lc : Int := if cfg.loopToEnd then -1 else lc0
  let m := maxParams [seg, other]
  match syncSeg m seg with
  | .error e => .error e
  | .ok s =>
    match syncSeg m other with
    | .error e => .error e
    | .ok o =>
      match s.Slice 0 cfg.position with
      | .error e => .error e
      | .ok head =>
        match s.Slice cfg.position s.Duration with
        | .error e => .error e
        | .ok rSeg =>
          let useGain := cfg.gainDuringOverlay > 0
          let res := if 0 < lc
            then overlayLoopPos s.sampleWidth useGain cfg.gainFac rSeg.data o.data lc.toNat 0
            else overlayLoopInf s.sampleWidth useGain cfg.gainFac rSeg.data o.data 0
          match res with
          | .error e => .error e
          | .ok out => .ok (s.derive (head.data ++ out))

/-- Modelled from the spec: `Len` is not under src/ (only `SplitOnSilence`
calls it, for the single-chunk timing); the spec states that SplitOnSilence
timings are reported in seconds, so `Len` is the duration in seconds. -/
def Len (seg : AudioSegment) : Q :=
  Q.ofInt seg.Duration / 1000

end AudioSegment

/-! ## Silence engine (silence.go and its concurrent variant) -/

/-- The candidate window starts of `DetectSilence`: the Go loop
`for i := 0; i < lastSliceStart+1; i += seekStep` followed by appending
`lastSliceStart` itself when it is not a multiple of the step.  Callers
guarantee `step > 0` (the Go loop never terminates otherwise) and
`last ≥ 0`. -/
def sliceStartsGo (last step : Int) : List Int :=
  let multiples :=
    if last < 0 then []
    else (List.range ((last / step).toNat + 1)).map (fun k : Nat => (k : Int) * step)
  if last % step ≠ 0 then multiples ++ [last] else multiples

/-- Whether the window `[i, i+msl)` is silent: slice it out and compare the
slice's RMS against the converted threshold.  The Go code ignores the `Slice`
error, so a failed slice leaves a nil segment whose `RMS()` call dereferences
nil — modelled as `none`. -/
def windowSilent (seg : AudioSegment) (msl : Int) (θ : Q) (i : Int) : Option Bool :=
  match seg.Slice i (i + msl) with
  | .error _ => none
  | .ok s => some (decide (Q.ofNat s.RMS ≤ θ))

/-- Collect the silent window starts in scan order, propagating a panic. -/
def collectSilentStarts (seg : AudioSegment) (msl : Int) (θ : Q) :
    List Int → Option (List Int)
  | [] => some []
  | i :: rest =>
    match windowSilent seg msl θ i with
    | none => none
    | some b =>
      (collectSilentStarts seg msl θ rest).map (fun l => if b then i :: l else l)

/-- The range-merging loop shared verbatim by `DetectSilence` and
`DetectSilenceConcurrent`: walk the silent starts keeping the current range's
start and the previous start; a start that is neither exactly one step ahead
nor within `msl` of the previous start closes the current range
`[currentRangeStart, prev + msl]` and opens a new one; the final range is
always emitted. -/
def mergeGo (msl step : Int) (cur prev : Int) : List Int → List (Int × Int)
  | [] => [(cur, prev + msl)]
  | s :: rest =>
    -- Go computes continuous := (s == prev+step) and silenceHasGap :=
    -- (s > prev+msl) and closes the range when continuous == false &&
    -- silenceHasGap == true.
    if ¬ (s = prev + step) ∧ s > prev + msl then
      (cur, prev + msl) :: mergeGo msl step s s rest
    else
      mergeGo msl step cur s rest

/-- The merged ranges from a list of silent starts. -/
def mergeStarts (msl step : Int) : List Int → List (Int × Int)
  | [] => []
  | p :: rest => mergeGo msl step p p rest

/-- The `DetectSilence` (silence.go).  The converted threshold
`silenceThresh.ToRatio(true) * seg.MaxPossibleAmplitude()` is passed in as
`θ` (both detection variants compute it with the same expression from the
same arguments).  `none` models a Go execution that does not return: a
non-positive seek step loops forever, and a window whose `Slice` fails
panics on the nil segment. -/
def DetectSilence (seg : AudioSegment) (msl : Int) (θ : Q) (step : Int) :
    Option (List (Int × Int)) :=
  if step ≤ 0 then none
  else
    let segLen := seg.Duration
    if segLen < msl then some []
    else
      let last := segLen - msl
      match collectSilentStarts seg msl θ (sliceStartsGo last step) with
      | none => none
      | some silent => some (mergeStarts msl step silent)

/-- The gap-building loop of `DetectNonsilent`: for each silent range emit
`(prevEnd, rangeStart)` and carry the range's end forward. -/
def buildGaps (prevEnd : Int) : List (Int × Int) → List (Int × Int)
  | [] => []
  | (s, e) :: rest => (prevEnd, s) :: buildGaps e rest

/-- The `DetectNonsilent` (silence.go): complement the silent ranges over
`[0, Duration())`.  The final Go statement compares `nonsilentRanges[0]`
(a `[]int64`) against `[]time.Duration{0, 0}` with `cmp.Equal`; go-cmp
reports values of different dynamic types unequal, so the condition is
always false and the leading zero-length range is never dropped — the
complement is returned as built. -/
def DetectNonsilent (seg : AudioSegment) (msl : Int) (θ : Q) (step : Int) :
    Option (List (Int × Int)) :=
  (DetectSilence seg msl θ step).map (fun silentRanges =>
    let lenSeg := seg.Duration
    match silentRanges with
    | [] => [(0, lenSeg)]
    | (s0, e0) :: _ =>
      if s0 = 0 ∧ e0 = lenSeg then []
      else
        let gaps := buildGaps 0 silentRanges
        let endI := (silentRanges.map (fun r => r.2)).getLastD 0
        if endI ≠ lenSeg then gaps ++ [(endI, lenSeg)] else gaps)

/-- The `calculateRMSForSegmentOptimized` (concurrent variant): convert the
millisecond bounds to byte indices, clamp the end to the data length, return
0 when the range is empty, and otherwise run `audioop.RMS` directly on the
raw bytes — returning 0 on any arithmetic-layer error. -/
def calculateRMSForSegmentOptimized (seg : AudioSegment) (start fin : Int) : Q :=
  let si := seg.parsePosition start * (seg.frameWidth : Int)
  let eiRaw := seg.parsePosition fin * (seg.frameWidth : Int)
  let ei := if eiRaw > (seg.data.length : Int) then (seg.data.length : Int) else eiRaw
  if si ≥ ei then 0
  else
    match audioop.RMS ((seg.data.take ei.toNat).drop si.toNat) seg.sampleWidth with
    | .ok r => Q.ofNat r
    | .error _ => 0

/-- The `DetectSilenceConcurrent` (the concurrent variant).  The workers fill
disjoint slots of an index-addressed results array and the collector walks
that array in index order, so the per-start silence verdicts are gathered in
scan order regardless of scheduling — modelled as a filter over the starts.
The merge loop is the same code as in `DetectSilence`.  `none` models the
non-terminating Go loop for a non-positive seek step. -/
def DetectSilenceConcurrent (seg : AudioSegment) (msl : Int) (θ : Q) (step : Int) :
    Option (List (Int × Int)) :=
  if step ≤ 0 then none
  else
    let segLen := seg.Duration
    if segLen < msl then some []
    else
      let last := segLen - msl
      let starts := sliceStartsGo last step
      let silent := starts.filter
        (fun i => calculateRMSForSegmentOptimized seg i (i + msl) ≤ θ)
      some (mergeStarts msl step silent)

/-- The `matchTargetAmp` (silence.go): apply the normalization gain to the
original segment.  The gain in Go is `(targetDBFS - sound.DBFS()).ToRatio
(true)`, a transcendental function of the segment; it is passed in as the
rational `normFac`.  The Go code ignores the `ApplyGain` error, returning a
nil segment on failure — modelled as `none` (the caller then panics on the
nil segment). -/
def matchTargetAmp (seg : AudioSegment) (normFac : Q) : Option AudioSegment :=
  match seg.ApplyGain normFac with
  | .error _ => none
  | .ok r => some r

/-- The chunk/timing construction of `SplitOnSilence` over the nonsilent
ranges: for each consecutive pair the end is capped at the midpoint of the
gap, the bounds are widened by `keepSilence` and clamped, and a chunk is
sliced from the original segment (a failed slice leaves a nil chunk that the
`!= nil` test skips); the last range is closed against the segment's
duration. -/
def splitChunksGo (seg : AudioSegment) (ks : Int) :
    List (Int × Int) → Int → (List AudioSegment × List (Q × Q))
  | [], _ => ([], [])
  | [r], startMin =>
    let startI := max startMin (r.1 - ks)
    let endI := min seg.Duration (r.2 + ks)
    match (seg.Slice startI endI).toOption with
    | some c => ([c], [(Q.ofInt startI / 1000, Q.ofInt endI / 1000)])
    | none => ([], [])
  | r1 :: r2 :: rest, startMin =>
    let endMax := r1.2 + Int.tdiv (r2.1 - r1.2 + 1) 2  -- Go integer division (truncated)
    let startI := max startMin (r1.1 - ks)
    let endI := min endMax (r1.2 + ks)
    let tail := splitChunksGo seg ks (r2 :: rest) r1.2
    match (seg.Slice startI endI).toOption with
    | some c => (c :: tail.1, (Q.ofInt startI / 1000, Q.ofInt endI / 1000) :: tail.2)
    | none => tail

/-- The `SplitOnSilence` (silence.go).  Fails with the empty-audio error when
`seg.RMS() == 0`; otherwise normalizes the original segment (the gain factor
is passed in as `normFac`, see `matchTargetAmp`; the freshly derived copy on
the preceding line is dead code), detects the nonsilent ranges of the
normalized copy, and slices the chunks out of the original segment.  `none`
models executions that do not return: a panic inside detection, a nil
normalized segment, and the `notSilenceRanges[len-1]` index panic when the
range list is empty (the whole-audio-silent detection outcome). -/
def SplitOnSilence (seg : AudioSegment) (msl : Int) (θ : Q) (keepSilence : Int)
    (step : Int) (normFac : Q) :
    Option (List AudioSegment × List (Q × Q) × Option GoError) :=
  if seg.RMS = 0 then some ([], [], some .emptyAudio)
  else
    match matchTargetAmp seg normFac with
    | none => none
    | some normAudio =>
      match DetectNonsilent normAudio msl θ step with
      | none => none
      | some notSilenceRanges =>
        match notSilenceRanges with
        | [] => none
        | [_] => some ([seg], [(0, seg.Len)], none)
        | rs => some (splitChunksGo seg keepSilence rs 0 |>.1,
                      splitChunksGo seg keepSilence rs 0 |>.2, none)

/-! ## Spec-side formulation of DetectSilence (for the candidate-start and
merge description of claim C5) -/

/-- The claim's candidate starts: every multiple of `step` in `[0, last]`, and
additionally the boundary `last` itself when it is not a multiple. -/
def candidateStartsSpec (last step : Int) : List Int :=
  let multiples :=
    if last < 0 then []
    else ((List.range (last.toNat + 1)).filter (fun k => k % step.toNat = 0)).map
      (fun k : Nat => (k : Int))
  if last % step ≠ 0 then multiples ++ [last] else multiples

/-- The claim's merge: a range is closed and a new one opened only when the
next silent start is both not exactly one step after the previous start and
more than `msl` past it; every other start is folded into the current range;
an emitted range is `[rangeStart, lastStartInRange + msl]`. -/
def mergeSpecGo (msl step : Int) (rangeStart lastStart : Int) :
    List Int → List (Int × Int)
  | [] => [(rangeStart, lastStart + msl)]
  | s :: rest =>
    if s ≠ lastStart + step ∧ s > lastStart + msl then
      (rangeStart, lastStart + msl) :: mergeSpecGo msl step s s rest
    else
      mergeSpecGo msl step rangeStart s rest

/-- The claim's merged ranges. -/
def mergeStartsSpec (msl step : Int) : List Int → List (Int × Int)
  | [] => []
  | p :: rest => mergeSpecGo msl step p p rest

/-- The `DetectSilence` as described by claim C5: empty when the duration is
below the minimum silence length, otherwise the merge of the silent
candidate starts. -/
def DetectSilenceSpec (seg : AudioSegment) (msl : Int) (θ : Q) (step : Int) :
    Option (List (Int × Int)) :=
  if step ≤ 0 then none
  else if seg.Duration < msl then some []
  else
    match collectSilentStarts seg msl θ (candidateStartsSpec (seg.Duration - msl) step) with
    | none => none
    | some silent => some (mergeStartsSpec msl step silent)

/-! ## Concrete segments used to settle the claims -/

/-- A width-1 (8-bit) segment: 4 one-byte frames of unsigned value 200 at
1000 Hz. -/
def w1seg : AudioSegment :=
  { sampleWidth := 1, frameRate := 1000, frameWidth := 1, channels := 1,
    data := [200, 200, 200, 200] }

/-- A 16-bit mono segment with 2 frames at 4000 Hz: its duration rounds up to
1 ms, which corresponds to 4 frames, so `Slice(0,1)` comes up 2 frames
short. -/
def shortSeg : AudioSegment :=
  { sampleWidth := 2, frameRate := 4000, frameWidth := 2, channels := 1,
    data := [10, 0, 20, 0] }

/-- A 16-bit mono segment at 1000 Hz: two zero frames followed by two frames
of sample value 1000 (silence at the start, not covering the whole span). -/
def headSilentSeg : AudioSegment :=
  { sampleWidth := 2, frameRate := 1000, frameWidth := 2, channels := 1,
    data := [0, 0, 0, 0, 232, 3, 232, 3] }

/-- A 7-frame 8-bit base at 5000 Hz: its duration rounds down to 1 ms
(= 5 frames), so the overlay tail stops 2 frames short of the data. -/
def roundDownBase : AudioSegment :=
  { sampleWidth := 1, frameRate := 5000, frameWidth := 1, channels := 1,
    data := [0, 0, 0, 0, 0, 0, 0] }

/-- A 1-frame 8-bit overlay at 5000 Hz. -/
def oneFrameTone : AudioSegment :=
  { sampleWidth := 1, frameRate := 5000, frameWidth := 1, channels := 1,
    data := [0] }

/-- The loop-to-end overlay configuration at position 0 (also exercising
`LoopCount = 0`). -/
def loopCfg : AudioSegment.OverlayConfig :=
  { position := 0, loopToEnd := true, loopCount := 0, gainDuringOverlay := 0, gainFac := 1 }

/-- A 500 ms 8-bit base at 1000 Hz. -/
def base500 : AudioSegment :=
  { sampleWidth := 1, frameRate := 1000, frameWidth := 1, channels := 1,
    data := List.replicate 500 0 }

/-- A 100 ms 8-bit overlay at 1000 Hz. -/
def tone100 : AudioSegment :=
  { sampleWidth := 1, frameRate := 1000, frameWidth := 1, channels := 1,
    data := List.replicate 100 0 }

/-- A 4-frame 8-bit segment at 1000 Hz used for the slice/append partition
witness. -/
def partitionSeg : AudioSegment :=
  { sampleWidth := 1, frameRate := 1000, frameWidth := 1, channels := 1,
    data := [1, 2, 3, 4] }

/-- A segment with the invalid declared sample width 5 (stored unchanged by
construction, rejected by every arithmetic-layer operation). -/
def badWidthSeg : AudioSegment :=
  { sampleWidth := 5, frameRate := 1000, frameWidth := 5, channels := 1,
    data := [1, 2, 3, 4, 5] }

/-- A one-frame 16-bit segment of sample value 1000 (RMS 1000 ≠ 0). -/
def loudSeg : AudioSegment :=
  { sampleWidth := 2, frameRate := 1000, frameWidth := 2, channels := 1,
    data := [232, 3] }

/-- A one-frame 16-bit segment of sample value 0 (RMS 0). -/
def zeroSeg : AudioSegment :=
  { sampleWidth := 2, frameRate := 1000, frameWidth := 2, channels := 1,
    data := [0, 0] }

/-- A segment whose own channel count is 3 (outside the supported {1,2}). -/
def threeChanSeg : AudioSegment :=
  { sampleWidth := 2, frameRate := 1000, frameWidth := 6, channels := 3,
    data := [] }

/-! ## Claim theorems -/

/-- C1: on a 1-byte-sample-width segment the concurrent detector does not
match the sequential one.  `w1seg` holds 4 loud frames (unsigned byte 200);
with minSilenceLen 2, seek step 1 and converted threshold 100 the sequential
`DetectSilence` forks each window to width 2 (RMS 18432 > 100) and finds no
silence, while `DetectSilenceConcurrent` feeds the width-1 bytes straight to
`audioop.RMS`, swallows the resulting invalid-width error as RMS 0, marks
every window silent, and returns the full-span range. -/
theorem c1_concurrent_divergence_eval :
    DetectSilence w1seg 2 100 1 = some [] ∧
    DetectSilenceConcurrent w1seg 2 100 1 = some [(0, 4)] := by
  decide

/-- C2: constructing a segment from a width-3 buffer does not store
sign-extended width-4 samples; the `bytes.NewBuffer` append bug leaves the
freshly allocated zero buffer untouched, so the input `[1, 2, 0x80]` (whose
claimed conversion is `[1, 2, 0x80, 0xFF]`) is stored as `[0, 0, 0, 0]`. -/
theorem c2_width3_zero_buffer_eval :
    (NewAudioSegment [1, 2, 128] 3 1000 3 1).data = [0, 0, 0, 0] ∧
    (NewAudioSegment [1, 2, 128] 3 1000 3 1).sampleWidth = 4 ∧
    (NewAudioSegment [1, 2, 128] 3 1000 3 1).data ≠ [1, 2, 128, 255] := by
  decide

/-- C3: a slice whose frame-aligned byte range comes up short (within the
2 ms tolerance) is *not* padded with silence frames.  `shortSeg` has 2 frames
at 4000 Hz, its duration rounds up to 1 ms = 4 frames, so `Slice(0, 1)`
expects 8 bytes but returns the bare 4 extracted bytes: the padding code runs
only when `audioop.Mul` fails, and then appends nothing. -/
theorem c3_slice_no_padding_eval :
    shortSeg.Slice 0 1 =
      .ok { sampleWidth := 2, frameRate := 4000, frameWidth := 2, channels := 1,
            data := [10, 0, 20, 0] } ∧
    ([10, 0, 20, 0] : List Nat).length ≠ 8 := by
  decide

/-- C4: the leading zero-length range is not dropped.  On `headSilentSeg`
(silent for its first 2 of 4 ms) `DetectSilence` returns `[(0, 2)]`, and
`DetectNonsilent` returns `[(0, 0), (2, 4)]`: the `cmp.Equal` comparison
against `[]time.Duration{0, 0}` is always false, so the spurious `[0, 0]`
stays in the result. -/
theorem c4_leading_zero_range_eval :
    DetectSilence headSilentSeg 2 10 1 = some [(0, 2)] ∧
    DetectNonsilent headSilentSeg 2 10 1 = some [(0, 0), (2, 4)] := by
  decide

/-- C10: `ForkWithChannels` validates only the requested target channel
count.  When the target is valid but the segment's own channel count lies
outside {1,2}, neither conversion branch is selected and the Go code calls
the nil `convertFunc` (a nil dereference), not the documented
invalid-configuration error; that error is returned exactly when the target
itself is outside {1,2}. -/
theorem c10_forkWithChannels_nil_deref :
    (∀ (seg : AudioSegment) (c : Nat), (c = 1 ∨ c = 2) →
      ¬ (seg.channels = 1 ∨ seg.channels = 2) →
      seg.ForkWithChannels c = .error .nilFuncPanic) ∧
    (∀ (seg : AudioSegment) (c : Nat),
      seg.ForkWithChannels c = .error .invalidChannels ↔ ¬ (c = 1 ∨ c = 2)) := by
  constructor
  · intro seg c hc hch
    have h1 : ¬¬(c = 1 ∨ c = 2) := not_not_intro hc
    have h2 : ¬(c = seg.channels) := by
      intro h
      exact hch (h ▸ hc)
    have h3 : ¬(c = 2 ∧ seg.channels = 1) := fun h => hch (Or.inl h.2)
    have h4 : ¬(c = 1 ∧ seg.channels = 2) := fun h => hch (Or.inr h.2)
    simp only [AudioSegment.ForkWithChannels, if_neg h1, if_neg h2, if_neg h3, if_neg h4]
  · intro seg c
    constructor
    · intro h
      by_contra hcv
      have h1 : ¬¬(c = 1 ∨ c = 2) := not_not_intro hcv
      simp only [AudioSegment.ForkWithChannels, if_neg h1] at h
      split at h
      · simp at h
      · split at h
        · split at h <;> simp at h
        · split at h
          · split at h <;> simp at h
          · simp at h
    · intro h
      simp only [AudioSegment.ForkWithChannels, if_pos h]

/-- C10 witness: a 3-channel segment panics on a valid target and errors on
an invalid one. -/
theorem c10_forkWithChannels_witness :
    threeChanSeg.ForkWithChannels 1 = .error .nilFuncPanic ∧
    (threeChanSeg.ForkWithChannels 3 = .error .invalidChannels ↔
      ¬ ((3 : Nat) = 1 ∨ (3 : Nat) = 2)) :=
  ⟨c10_forkWithChannels_nil_deref.1 threeChanSeg 1 (Or.inl rfl) (by decide),
   c10_forkWithChannels_nil_deref.2 threeChanSeg 3⟩

/-- C8 counterexample: the measurement operations do not return the
arithmetic-layer error; they substitute the default 0.  On a segment with
declared sample width 5, `audioop.Max` and `audioop.RMS` fail with an
invalid-width error, yet `Max()` and `RMS()` return 0. -/
theorem c8_measurement_swallows_error :
    audioop.Max badWidthSeg.data badWidthSeg.sampleWidth = .error .invalidWidth ∧
    AudioSegment.Max badWidthSeg = 0 ∧
    audioop.RMS badWidthSeg.data badWidthSeg.sampleWidth = .error .invalidWidth ∧
    AudioSegment.RMS badWidthSeg = 0 := by
  decide

/-- C8 amended: the *transforming* operations return arithmetic-layer errors
unchanged to the caller, with no retry and no default; the *measurement*
operations `RMS()` and `Max()` swallow the error and return 0 (as their own
doc comments state). -/
theorem c8_error_propagation_amended :
    (∀ (seg : AudioSegment) (fac : Q) (e : audioop.AError),
      audioop.Mul seg.data seg.sampleWidth fac = .error e →
      seg.ApplyGain fac = .error (.aop e)) ∧
    (∀ (seg : AudioSegment) (e : audioop.AError),
      audioop.Reverse seg.data seg.sampleWidth = .error e →
      seg.Reverse = .error (.aop e)) ∧
    (∀ (seg : AudioSegment) (e : audioop.AError),
      audioop.Max seg.data seg.sampleWidth = .error e → seg.Max = 0) ∧
    (∀ (seg : AudioSegment) (e : audioop.AError),
      seg.sampleWidth ≠ 1 →
      audioop.RMS seg.data seg.sampleWidth = .error e → seg.RMS = 0) := by
  refine ⟨?_, ?_, ?_, ?_⟩
  · intro seg fac e h
    simp only [AudioSegment.ApplyGain, h]
  · intro seg e h
    simp only [AudioSegment.Reverse, h]
  · intro seg e h
    simp only [AudioSegment.Max, h]
  · intro seg e hw h
    simp only [AudioSegment.RMS, if_neg hw, AudioSegment.rmsAux, h]

/-- C8 witness: the propagation and the swallowing, exercised on the
width-5 segment. -/
theorem c8_error_propagation_witness :
    (audioop.Mul badWidthSeg.data badWidthSeg.sampleWidth 1 = .error .invalidWidth ∧
     badWidthSeg.ApplyGain 1 = .error (.aop .invalidWidth)) ∧
    (badWidthSeg.sampleWidth ≠ 1 ∧ badWidthSeg.RMS = 0) :=
  ⟨⟨by decide,
    c8_error_propagation_amended.1 badWidthSeg 1 .invalidWidth (by decide)⟩,
   ⟨by decide,
    c8_error_propagation_amended.2.2.2 badWidthSeg .invalidWidth (by decide) (by decide)⟩⟩

/-- C9 counterexample: on a segment with nonzero RMS, a threshold that makes
the whole audio silent drives `DetectNonsilent` to an empty range list, and
`SplitOnSilence` then panics indexing `notSilenceRanges[len-1]` with
`len = 0` instead of returning chunks with a nil error. -/
theorem c9_allsilent_panic_eval :
    SplitOnSilence loudSeg 1 2000 0 1 1 = none ∧ loudSeg.RMS ≠ 0 := by
  decide

/-- C9 amended: `SplitOnSilence` returns the empty-audio error (with both
result lists empty) exactly when `seg.RMS() == 0`; on nonzero RMS every
*returning* execution yields a nil error, but the call can instead panic
when the detection finds no nonsilent range (see the counterexample). -/
theorem c9_empty_error_iff (seg : AudioSegment) (msl : Int) (θ : Q)
    (ks step : Int) (normFac : Q) :
    (seg.RMS = 0 →
      SplitOnSilence seg msl θ ks step normFac = some ([], [], some .emptyAudio)) ∧
    (∀ c t e, SplitOnSilence seg msl θ ks step normFac = some (c, t, e) →
      ((e ≠ none ↔ seg.RMS = 0) ∧ (seg.RMS = 0 → c = [] ∧ t = []))) := by
  by_cases h : seg.RMS = 0
  · constructor
    · intro _
      simp only [SplitOnSilence, if_pos h]
    · intro c t e heq
      simp only [SplitOnSilence, if_pos h, Option.some.injEq, Prod.mk.injEq] at heq
      obtain ⟨hc, ht, he⟩ := heq
      subst hc; subst ht; subst he
      refine ⟨?_, fun _ => ⟨rfl, rfl⟩⟩
      simp [h]
  · constructor
    · intro h0
      exact absurd h0 h
    · intro c t e heq
      simp only [SplitOnSilence, if_neg h] at heq
      refine ⟨?_, fun h0 => absurd h0 h⟩
      split at heq
      · exact Option.noConfusion heq
      · split at heq
        · exact Option.noConfusion heq
        · split at heq
          · exact Option.noConfusion heq
          · simp only [Option.some.injEq, Prod.mk.injEq] at heq
            obtain ⟨-, -, he⟩ := heq
            subst he
            simp [h]
          · simp only [Option.some.injEq, Prod.mk.injEq] at heq
            obtain ⟨-, -, he⟩ := heq
            subst he
            simp [h]

/-- C9 witness: the empty-audio case at the zero segment. -/
theorem c9_empty_error_witness :
    zeroSeg.RMS = 0 ∧
    SplitOnSilence zeroSeg 1 0 0 1 1 = some ([], [], some .emptyAudio) :=
  ⟨by decide, (c9_empty_error_iff zeroSeg 1 0 0 1 1).1 (by decide)⟩

/-- The numbers with residue 0 in `[0, n]` are exactly the multiples of
`s` up to `n`. -/
theorem filter_range_mod (s : Nat) (_hs : 0 < s) (n : Nat) :
    (List.range (n + 1)).filter (fun i => i % s = 0) =
      (List.range (n / s + 1)).map (fun k => k * s) := by
  induction n with
  | zero =>
    have h0 : (0 : Nat) % s = 0 := Nat.zero_mod s
    simp [List.range_succ, Nat.zero_div, h0]
  | succ n ih =>
    rw [List.range_succ, List.filter_append, ih]
    by_cases hdvd : s ∣ (n + 1)
    · have hmod : (n + 1) % s = 0 := by
        obtain ⟨c, hc⟩ := hdvd
        rw [hc]
        exact Nat.mul_mod_right s c
      have hdiv : (n + 1) / s = n / s + 1 := by
        rw [Nat.succ_div, if_pos hdvd]
      have hmul : (n / s + 1) * s = n + 1 := by
        rw [← hdiv]
        exact Nat.div_mul_cancel hdvd
      have hfil : List.filter (fun i => decide (i % s = 0)) [n + 1] = [n + 1] := by
        simp [hmod]
      conv_rhs => rw [hdiv, List.range_succ, List.map_append]
      rw [hfil]
      simp only [List.map_cons, List.map_nil, hmul]
    · have hmod : (n + 1) % s ≠ 0 := fun h => hdvd (Nat.dvd_of_mod_eq_zero h)
      have hdiv : (n + 1) / s = n / s := by
        rw [Nat.succ_div, if_neg hdvd, Nat.add_zero]
      simp [hmod, hdiv]

/-- The Go seek loop produces the claim's candidate starts. -/
theorem sliceStartsGo_eq_spec (last step : Int) (hlast : 0 ≤ last) (hstep : 0 < step) :
    sliceStartsGo last step = candidateStartsSpec last step := by
  have hlast2 : ¬ last < 0 := not_lt.mpr hlast
  have hM : (List.range ((last / step).toNat + 1)).map (fun k : Nat => (k : Int) * step)
      = ((List.range (last.toNat + 1)).filter (fun k => k % step.toNat = 0)).map
        (fun k : Nat => (k : Int)) := by
    rw [filter_range_mod step.toNat (by omega) last.toNat, List.map_map]
    have harg : (last / step).toNat = last.toNat / step.toNat := by
      conv_lhs => rw [← Int.toNat_of_nonneg hlast, ← Int.toNat_of_nonneg hstep.le,
        ← Int.natCast_div]
      exact Int.toNat_ofNat _
    have hfun : ((fun k : Nat => (k : Int)) ∘ fun k => k * step.toNat)
        = (fun k : Nat => (k : Int) * step) := by
      funext k
      simp only [Function.comp_apply, Nat.cast_mul]
      rw [Int.toNat_of_nonneg hstep.le]
    rw [harg, hfun]
  unfold sliceStartsGo candidateStartsSpec
  rw [if_neg hlast2, if_neg hlast2, hM]

/-- The two textually identical merge loops agree. -/
theorem mergeGo_eq_spec (msl step : Int) :
    ∀ (l : List Int) (cur prev : Int),
      mergeGo msl step cur prev l = mergeSpecGo msl step cur prev l := by
  intro l
  induction l with
  | nil => intro cur prev; rfl
  | cons s rest ih =>
    intro cur prev
    simp only [mergeGo, mergeSpecGo, ne_eq]
    split
    · rw [ih]
    · rw [ih]

/-- The merged ranges agree from any list of silent starts. -/
theorem mergeStarts_eq_spec (msl step : Int) (l : List Int) :
    mergeStarts msl step l = mergeStartsSpec msl step l := by
  cases l with
  | nil => rfl
  | cons p rest => exact mergeGo_eq_spec msl step rest p p

/-- C5: `DetectSilence` behaves exactly as the claim describes: empty result
below the minimum silence length; otherwise the window starts examined are
the multiples of the seek step in `[0, Duration - minSilenceLen]` plus the
boundary when it is not a multiple, and the silent starts are merged with
the close-only-on-genuine-gap rule, each range being
`[rangeStart, lastStart + minSilenceLen]`. -/
theorem c5_detectSilence_matches_spec (seg : AudioSegment) (msl : Int) (θ : Q)
    (step : Int) :
    DetectSilence seg msl θ step = DetectSilenceSpec seg msl θ step := by
  by_cases hs : step ≤ 0
  · simp [DetectSilence, DetectSilenceSpec, hs]
  · by_cases hd : seg.Duration < msl
    · simp [DetectSilence, DetectSilenceSpec, hs, hd]
    · have hstep : 0 < step := by omega
      have hlast : 0 ≤ seg.Duration - msl := by omega
      simp only [DetectSilence, DetectSilenceSpec, if_neg hs, if_neg hd,
        sliceStartsGo_eq_spec _ _ hlast hstep]
      cases collectSilentStarts seg msl θ (candidateStartsSpec (seg.Duration - msl) step) with
      | none => rfl
      | some silent =>
        dsimp only
        rw [mergeStarts_eq_spec]

/-- An `Except.map` that lands on `ok` came from an `ok`. -/
theorem except_map_ok {ε α β : Type} {f : α → β} {x : Except ε α} {b : β}
    (h : Except.map f x = .ok b) : ∃ a, x = .ok a ∧ b = f a := by
  cases x with
  | error e => simp [Except.map] at h
  | ok a =>
    simp only [Except.map, Except.ok.injEq] at h
    exact ⟨a, rfl, h.symm⟩

/-- Encoded samples occupy exactly `w` bytes. -/
theorem encodeLE_length (w : Nat) (v : Int) : (encodeLE w v).length = w := by
  simp [encodeLE]

/-- With enough fuel, chunking a buffer whose length the width divides
yields `length / w` chunks (stated multiplicatively). -/
theorem chunkListAux_length_mul (w : Nat) (hw : 0 < w) :
    ∀ (fuel : Nat) (l : List Nat), l.length ≤ fuel → w ∣ l.length →
      (chunkListAux w fuel l).length * w = l.length := by
  intro fuel
  induction fuel with
  | zero =>
    intro l hl _
    cases l with
    | nil => simp [chunkListAux]
    | cons a t => simp at hl
  | succ fuel ih =>
    intro l hl hdvd
    cases l with
    | nil => simp [chunkListAux]
    | cons a t =>
      have hwle : w ≤ (a :: t).length := Nat.le_of_dvd (by simp) hdvd
      have hdvd2 : w ∣ ((a :: t).drop w).length := by
        rw [List.length_drop]
        exact Nat.dvd_sub' hdvd dvd_rfl
      have hrec := ih ((a :: t).drop w)
        (by simp only [List.length_drop, List.length_cons] at *; omega) hdvd2
      rw [chunkListAux]
      · rw [List.length_drop] at hrec
        simp only [List.length_cons] at *
        rw [Nat.succ_mul]
        omega
      · exact fun h => List.noConfusion h

/-- The `chunkList` chunk count, multiplicatively. -/
theorem chunkList_length_mul (w : Nat) (l : List Nat) (hw : 0 < w)
    (hdvd : w ∣ l.length) : (chunkList w l).length * w = l.length := by
  unfold chunkList
  rw [if_neg (by omega)]
  exact chunkListAux_length_mul w hw l.length l le_rfl hdvd

/-- Flattening a map whose images all have length `w`. -/
theorem flatten_map_length {α : Type} (g : α → List Nat) (w : Nat) (L : List α)
    (h : ∀ x ∈ L, (g x).length = w) : ((L.map g).flatten).length = L.length * w := by
  induction L with
  | nil => simp
  | cons a t ih =>
    simp only [List.map_cons, List.flatten_cons, List.length_append, List.length_cons]
    rw [h a (List.mem_cons_self a t), ih (fun x hx => h x (List.mem_cons_of_mem a hx))]
    ring

/-- The `audioop.Mul` preserves the buffer length. -/
theorem mul_ok_length {buf r : List Nat} {w : Nat} {factor : Q}
    (h : audioop.Mul buf w factor = .ok r) : r.length = buf.length := by
  unfold audioop.Mul at h
  split at h
  · exact Except.noConfusion h
  · split at h
    · exact Except.noConfusion h
    · rename_i hw hmod
      rw [not_not] at hw
      rw [Ne, not_not] at hmod
      have hw0 : 0 < w := by rcases hw with h1 | h1 | h1 <;> omega
      have hdvd : w ∣ buf.length := Nat.dvd_of_mod_eq_zero hmod
      simp only [Except.ok.injEq] at h
      subst h
      unfold sampleMap
      rw [flatten_map_length _ w _ (fun x _ => encodeLE_length w _)]
      exact chunkList_length_mul w buf hw0 hdvd

/-- The `audioop.Add` returns a buffer of the common input length. -/
theorem add_ok_length {a b r : List Nat} {w : Nat}
    (h : audioop.Add a b w = .ok r) : r.length = a.length := by
  unfold audioop.Add at h
  split at h
  · exact Except.noConfusion h
  · split at h
    · exact Except.noConfusion h
    · split at h
      · exact Except.noConfusion h
      · rename_i hw hmod hlen
        rw [not_not] at hw
        rw [Ne, not_not] at hmod
        rw [Ne, not_not] at hlen
        have hw0 : 0 < w := by rcases hw with h1 | h1 | h1 <;> omega
        have hdvda : w ∣ a.length := Nat.dvd_of_mod_eq_zero hmod
        have hdvdb : w ∣ b.length := by rw [← hlen]; exact hdvda
        simp only [Except.ok.injEq] at h
        subst h
        rw [flatten_map_length _ w _ (fun x _ => encodeLE_length w _)]
        rw [List.length_zip]
        have hca := chunkList_length_mul w a hw0 hdvda
        have hcb := chunkList_length_mul w b hw0 hdvdb
        have : (chunkList w a).length = (chunkList w b).length := by
          apply Nat.eq_of_mul_eq_mul_right hw0
          rw [hca, hcb, hlen]
        rw [this, Nat.min_self, hcb, ← hlen]

/-- The overlay mixing step returns as many bytes as the base chunk. -/
theorem overlayMix_length {w : Nat} {useGain : Bool} {gainFac : Q}
    {chunk o2 r : List Nat}
    (h : AudioSegment.overlayMix w useGain gainFac chunk o2 = .ok r) :
    r.length = chunk.length := by
  unfold AudioSegment.overlayMix at h
  split at h
  · split at h
    · exact Except.noConfusion h
    · rename_i hmul
      split at h
      · exact Except.noConfusion h
      · rename_i hadd
        simp only [Except.ok.injEq] at h
        subst h
        rw [add_ok_length hadd]
        exact mul_ok_length hmul
  · split at h
    · exact Except.noConfusion h
    · rename_i hadd
      simp only [Except.ok.injEq] at h
      subst h
      exact add_ok_length hadd

/-- The positive-counter overlay loop emits exactly the remaining tail
bytes. -/
theorem overlayLoopPos_length (w : Nat) (useGain : Bool) (gainFac : Q)
    (rData oData : List Nat) :
    ∀ (n pos : Nat) (out : List Nat), pos ≤ rData.length →
      AudioSegment.overlayLoopPos w useGain gainFac rData oData n pos = .ok out →
      out.length = rData.length - pos := by
  intro n
  induction n with
  | zero =>
    intro pos out _ h
    simp only [AudioSegment.overlayLoopPos, Except.ok.injEq] at h
    subst h
    simp [List.length_drop]
  | succ n ih =>
    intro pos out hpos h
    simp only [AudioSegment.overlayLoopPos] at h
    split at h
    · rename_i htr
      obtain ⟨mixed, hmix, hout⟩ := except_map_ok h
      subst hout
      have hmlen := overlayMix_length hmix
      simp only [List.length_append, List.length_take, List.length_drop] at *
      omega
    · rename_i htr
      split at h
      · exact Except.noConfusion h
      · rename_i mixed hmix
        obtain ⟨rest, hrest, hout⟩ := except_map_ok h
        subst hout
        have hmlen := overlayMix_length hmix
        have hrlen := ih (pos + oData.length) rest (by simp at htr; omega) hrest
        simp only [List.length_append, List.length_take, List.length_drop] at *
        omega

/-- The loop-to-end overlay loop emits exactly the remaining tail bytes. -/
theorem overlayLoopInfAux_length (w : Nat) (useGain : Bool) (gainFac : Q)
    (rData oData : List Nat) :
    ∀ (fuel pos : Nat) (out : List Nat), pos ≤ rData.length →
      AudioSegment.overlayLoopInfAux w useGain gainFac rData oData fuel pos = .ok out →
      out.length = rData.length - pos := by
  intro fuel
  induction fuel with
  | zero =>
    intro pos out _ h
    simp only [AudioSegment.overlayLoopInfAux] at h
    exact Except.noConfusion h
  | succ fuel ih =>
    intro pos out hpos h
    simp only [AudioSegment.overlayLoopInfAux] at h
    split at h
    · rename_i htr
      obtain ⟨mixed, hmix, hout⟩ := except_map_ok h
      subst hout
      have hmlen := overlayMix_length hmix
      simp only [List.length_append, List.length_take, List.length_drop] at *
      omega
    · rename_i htr
      split at h
      · exact Except.noConfusion h
      · split at h
        · exact Except.noConfusion h
        · rename_i mixed hmix
          obtain ⟨rest, hrest, hout⟩ := except_map_ok h
          subst hout
          have hmlen := overlayMix_length hmix
          have hrlen := ih (pos + oData.length) rest (by simp at htr; omega) hrest
          simp only [List.length_append, List.length_take, List.length_drop] at *
          omega

/-- Deriving with an unchanged (non-3) sample width keeps the parameters and
stores the data as given. -/
theorem derive_eq (seg : AudioSegment) (d : List Nat) (hsw : seg.sampleWidth ≠ 3) :
    seg.derive d = { sampleWidth := seg.sampleWidth, frameRate := seg.frameRate,
                     frameWidth := seg.frameWidth, channels := seg.channels, data := d } := by
  simp [AudioSegment.derive, AudioSegment.deriveOpts, NewAudioSegment, hsw]

/-- C6 counterexample: with loop-to-end, `Overlay` can return *fewer* bytes
than the synchronized base segment.  `roundDownBase` has 7 one-byte frames at
5000 Hz; its duration rounds to 1 ms = 5 frames, so head ++ tail covers only
5 of the 7 bytes; `sync` leaves the (already matching) base untouched, so the
synchronized base still has 7 data bytes while the overlay result has 5. -/
theorem c6_overlay_short_eval :
    roundDownBase.Overlay oneFrameTone loopCfg =
      .ok { sampleWidth := 1, frameRate := 5000, frameWidth := 1, channels := 1,
            data := [0, 0, 0, 0, 0] } ∧
    AudioSegment.syncSeg (AudioSegment.maxParams [roundDownBase, oneFrameTone])
      roundDownBase = .ok roundDownBase ∧
    roundDownBase.data.length = 7 := by
  decide

/-- C6 amended: with loop-to-end, every successful `Overlay` returns exactly
`len(Slice(0, Position)) + len(Slice(Position, Duration))` bytes of the
synchronized base — the tail is covered completely and never exceeded, but
those two slices can fall short of the synchronized base's own data length
when the duration rounds down (see the counterexample).  The concrete
100 ms-onto-500 ms overlay at position 0 is exactly 500 ms long, and a
`LoopCount` of 0 is treated as 1. -/
theorem c6_overlay_loopToEnd_amended :
    (∀ (seg other : AudioSegment) (cfg : AudioSegment.OverlayConfig)
        (s o head rSeg res : AudioSegment),
      cfg.loopToEnd = true →
      s.sampleWidth ≠ 3 →
      AudioSegment.syncSeg (AudioSegment.maxParams [seg, other]) seg = .ok s →
      AudioSegment.syncSeg (AudioSegment.maxParams [seg, other]) other = .ok o →
      s.Slice 0 cfg.position = .ok head →
      s.Slice cfg.position s.Duration = .ok rSeg →
      seg.Overlay other cfg = .ok res →
      res.data.length = head.data.length + rSeg.data.length) ∧
    (base500.Overlay tone100 loopCfg).map AudioSegment.Duration = .ok 500 ∧
    (∀ (seg other : AudioSegment) (p : Int) (lte : Bool) (g gf : Q),
      seg.Overlay other ⟨p, lte, 0, g, gf⟩ = seg.Overlay other ⟨p, lte, 1, g, gf⟩) := by
  refine ⟨?_, by decide, ?_⟩
  · intro seg other cfg s o head rSeg res hlte hsw hs ho hhead htail hres
    simp only [AudioSegment.Overlay, hs, ho, hhead, htail, hlte, if_true] at hres
    rw [if_neg (by norm_num : ¬ ((0 : Int) < -1))] at hres
    split at hres
    · exact Except.noConfusion hres
    · rename_i out hloop
      simp only [Except.ok.injEq] at hres
      subst hres
      rw [derive_eq s _ hsw]
      have hout := overlayLoopInfAux_length s.sampleWidth _ cfg.gainFac rSeg.data o.data
        (rSeg.data.length + 1) 0 out (Nat.zero_le _) hloop
      simp only [List.length_append, hout, Nat.sub_zero]
  · intro seg other p lte g gf
    rfl

/-- C6 witness: the amended length law at the rounding counterexample. -/
theorem c6_overlay_length_witness :
    roundDownBase.Overlay oneFrameTone loopCfg =
      .ok { sampleWidth := 1, frameRate := 5000, frameWidth := 1, channels := 1,
            data := [0, 0, 0, 0, 0] } ∧
    ({ sampleWidth := 1, frameRate := 5000, frameWidth := 1, channels := 1,
       data := [0, 0, 0, 0, 0] } : AudioSegment).data.length =
      ({ sampleWidth := 1, frameRate := 5000, frameWidth := 1, channels := 1,
         data := ([] : List Nat) } : AudioSegment).data.length +
      ({ sampleWidth := 1, frameRate := 5000, frameWidth := 1, channels := 1,
         data := [0, 0, 0, 0, 0] } : AudioSegment).data.length :=
  ⟨by decide,
   c6_overlay_loopToEnd_amended.1 roundDownBase oneFrameTone loopCfg
     roundDownBase oneFrameTone
     { sampleWidth := 1, frameRate := 5000, frameWidth := 1, channels := 1,
       data := ([] : List Nat) }
     { sampleWidth := 1, frameRate := 5000, frameWidth := 1, channels := 1,
       data := [0, 0, 0, 0, 0] }
     { sampleWidth := 1, frameRate := 5000, frameWidth := 1, channels := 1,
       data := [0, 0, 0, 0, 0] }
     (by decide) (by decide) (by decide) (by decide) (by decide) (by decide) (by decide)⟩

/-! ## Arithmetic shape lemmas for the millisecond-to-byte conversion -/

/-- Unfolding `*` on `Q`. -/
theorem Q.mul_def (a b : Q) : a * b = ⟨a.num * b.num, a.den * b.den⟩ := rfl

/-- Unfolding a numeral of `Q`. -/
theorem Q.num_ofNat (n : Nat) : (OfNat.ofNat n : Q) = ⟨(n : Int), 1⟩ := rfl

/-- Unfolding `<` on `Q`. -/
theorem Q.lt_iff (a b : Q) : a < b ↔ a.num * (b.den : Int) < b.num * (a.den : Int) :=
  Iff.rfl

/-- Division by a positive natural embeds as a denominator factor. -/
theorem Q.div_nat (a : Q) (n : Nat) (hn : 0 < n) :
    a / (⟨(n : Int), 1⟩ : Q) = ⟨a.num, a.den * n⟩ := by
  show Q.div a _ = _
  unfold Q.div
  rw [if_neg (by simpa using Nat.pos_iff_ne_zero.mp hn),
    if_neg (by simp)]
  simp

/-- The float expression `ms · (rate/1000)` in `FrameCountIn`, as an exact
fraction. -/
theorem frameCountIn_eq (seg : AudioSegment) (ms : Int) :
    seg.FrameCountIn ms =
      ⟨(if ms > seg.Duration then seg.Duration else ms) * (seg.frameRate : Int), 1000⟩ := by
  unfold AudioSegment.FrameCountIn
  show Q.ofInt (if ms > seg.Duration then seg.Duration else ms) *
      (Q.ofNat seg.frameRate / (1000 : Q)) = _
  rw [show (1000 : Q) = ⟨((1000 : Nat) : Int), 1⟩ from rfl,
    show Q.ofNat seg.frameRate = ⟨(seg.frameRate : Int), 1⟩ from rfl,
    Q.div_nat _ 1000 (by norm_num),
    show Q.ofInt (if ms > seg.Duration then seg.Duration else ms)
      = ⟨(if ms > seg.Duration then seg.Duration else ms), 1⟩ from rfl,
    Q.mul_def]
  simp

/-- The `goRound` of a fraction with nonnegative numerator is nonnegative. -/
theorem goRound_nonneg (x : Q) (h : 0 ≤ x.num) : 0 ≤ goRound x := by
  unfold goRound
  rw [if_neg]
  · show 0 ≤ Int.ediv _ _
    apply Int.ediv_nonneg
    · show 0 ≤ x.num * 2 + 1 * (x.den : Int)
      have : (0 : Int) ≤ (x.den : Int) := Int.ofNat_nonneg x.den
      omega
    · exact_mod_cast Nat.zero_le _
  · rw [Q.lt_iff]
    simp only [Q.num_ofNat]
    have : (0 : Int) ≤ (x.den : Int) := Int.ofNat_nonneg x.den
    omega

/-- Durations are never negative. -/
theorem duration_nonneg (seg : AudioSegment) : 0 ≤ seg.Duration := by
  unfold AudioSegment.Duration
  split
  · omega
  · rename_i hrate
    apply goRound_nonneg
    rw [show (1000 : Q) * Q.ofNat seg.FrameCount = ⟨1000 * (seg.FrameCount : Int), 1⟩ from rfl]
    rw [show Q.ofNat seg.frameRate = ⟨((seg.frameRate : Nat) : Int), 1⟩ from rfl]
    rw [Q.div_nat _ seg.frameRate (by omega)]
    have : (0 : Int) ≤ (seg.FrameCount : Int) := Int.ofNat_nonneg _
    simp only
    positivity

/-- The `parsePosition` of a nonnegative position, as an integer division. -/
theorem parsePosition_eq (seg : AudioSegment) (ms : Int) (hms : 0 ≤ ms) :
    seg.parsePosition ms =
      Int.ediv ((if ms > seg.Duration then seg.Duration else ms) * (seg.frameRate : Int))
        1000 := by
  have hD := duration_nonneg seg
  have hm2 : 0 ≤ (if ms > seg.Duration then seg.Duration else ms) := by
    split <;> omega
  unfold AudioSegment.parsePosition goTrunc
  rw [frameCountIn_eq]
  rw [if_neg]
  · show Int.ediv _ ((1000 : Nat) : Int) = _
    norm_num
  · rw [Q.lt_iff]
    simp only [Q.num_ofNat]
    have hr : (0 : Int) ≤ (seg.frameRate : Int) := Int.ofNat_nonneg _
    have := mul_nonneg hm2 hr
    omega

/-- The `parsePosition` of a nonnegative position is nonnegative. -/
theorem parsePosition_nonneg (seg : AudioSegment) (ms : Int) (hms : 0 ≤ ms) :
    0 ≤ seg.parsePosition ms := by
  rw [parsePosition_eq seg ms hms]
  apply Int.ediv_nonneg
  · have hD := duration_nonneg seg
    have hr : (0 : Int) ≤ (seg.frameRate : Int) := Int.ofNat_nonneg _
    apply mul_nonneg _ hr
    split <;> omega
  · norm_num

/-- The `parsePosition` is monotone on nonnegative positions. -/
theorem parsePosition_mono (seg : AudioSegment) (a b : Int) (h0 : 0 ≤ a) (hab : a ≤ b) :
    seg.parsePosition a ≤ seg.parsePosition b := by
  rw [parsePosition_eq seg a h0, parsePosition_eq seg b (by omega)]
  apply Int.ediv_le_ediv (by norm_num)
  apply mul_le_mul_of_nonneg_right _ (Int.ofNat_nonneg _)
  have hD := duration_nonneg seg
  split <;> split <;> omega

/-- The `parsePosition 0 = 0`. -/
theorem parsePosition_zero (seg : AudioSegment) : seg.parsePosition 0 = 0 := by
  rw [parsePosition_eq seg 0 le_rfl]
  have hD := duration_nonneg seg
  rw [if_neg (by omega)]
  simp only [zero_mul]
  decide

/-- Characterization of a successful `Slice` whose bounds are already inside
`[0, Duration]`: the result carries the parent's parameters and exactly the
frame-aligned byte range (never padded — see claim C3). -/
theorem slice_ok_spec (seg : AudioSegment) (a b : Int) (s : AudioSegment)
    (hsw : seg.sampleWidth ≠ 3) (h0 : 0 ≤ a) (hab : a ≤ b) (hbD : b ≤ seg.Duration)
    (h : seg.Slice a b = .ok s) :
    0 ≤ seg.parsePosition a * (seg.frameWidth : Int) ∧
    seg.parsePosition a * (seg.frameWidth : Int) ≤
      min (seg.parsePosition b * (seg.frameWidth : Int)) (seg.data.length : Int) ∧
    s = { sampleWidth := seg.sampleWidth, frameRate := seg.frameRate,
          frameWidth := seg.frameWidth, channels := seg.channels,
          data := (seg.data.take
              (min (seg.parsePosition b * (seg.frameWidth : Int))
                (seg.data.length : Int)).toNat).drop
            (seg.parsePosition a * (seg.frameWidth : Int)).toNat } := by
  have hD := duration_nonneg seg
  have hg1 : ¬ (a > b) := by omega
  have hg2 : ¬ (a < 0 ∨ b < 0) := by omega
  have hg3 : ¬ (a > seg.Duration) := by omega
  have hg4 : ¬ (b > seg.Duration) := by omega
  have hmin : (if seg.parsePosition b * (seg.frameWidth : Int) > (seg.data.length : Int)
        then (seg.data.length : Int)
        else seg.parsePosition b * (seg.frameWidth : Int)) =
      min (seg.parsePosition b * (seg.frameWidth : Int)) (seg.data.length : Int) := by
    rw [min_def]
    split <;> split <;> omega
  simp only [AudioSegment.Slice, hg1, hg2, hg3, hg4, if_false, ite_false] at h
  rw [hmin] at h
  split at h
  · exact Except.noConfusion h
  · rename_i dat hgo
    unfold AudioSegment.goSlice at hgo
    split at hgo
    · rename_i hcond
      simp only [Option.some.injEq] at hgo
      subst hgo
      refine ⟨hcond.1, hcond.2.1, ?_⟩
      split at h
      · exact Except.noConfusion h
      · split at h
        · split at h
          · exact Except.noConfusion h
          · split at h <;>
              · simp only [Except.ok.injEq] at h
                subst h
                rw [derive_eq seg _ hsw]
        · simp only [Except.ok.injEq] at h
          subst h
          rw [derive_eq seg _ hsw]
    · exact Option.noConfusion hgo

/-- The `syncSeg` to a segment's own parameters is the identity (for supported
channel counts). -/
theorem syncSeg_self (t : AudioSegment) (hch : t.channels = 1 ∨ t.channels = 2) :
    AudioSegment.syncSeg (t.channels, t.frameRate, t.sampleWidth) t = .ok t := by
  have h1 : t.ForkWithChannels t.channels = .ok t := by
    unfold AudioSegment.ForkWithChannels
    rw [if_neg (not_not_intro hch), if_pos rfl]
  have h2 : t.ForkWithFrameRate t.frameRate = .ok t := by
    unfold AudioSegment.ForkWithFrameRate
    rw [if_pos rfl]
  have h3 : t.ForkWithSampleWidth t.sampleWidth = .ok t := by
    unfold AudioSegment.ForkWithSampleWidth
    rw [if_pos rfl]
  simp only [AudioSegment.syncSeg, h1, h2, h3]

/-- A successful two-segment `Append` of equal-format segments concatenates
the buffers (the `sync` step is the identity). -/
theorem append_two_data (s1 s2 s12 : AudioSegment)
    (hw : s1.sampleWidth = s2.sampleWidth) (hf : s1.frameRate = s2.frameRate)
    (hc : s1.channels = s2.channels) (h3 : s1.sampleWidth ≠ 3)
    (h : s1.Append [s2] = .ok s12) :
    s12.data = s1.data ++ s2.data := by
  have hm : AudioSegment.maxParams [s1, s2] = (s1.channels, s1.frameRate, s1.sampleWidth) := by
    simp [AudioSegment.maxParams, ← hw, ← hf, ← hc]
  by_cases hval : s1.channels = 1 ∨ s1.channels = 2
  · have hs1 : AudioSegment.syncSeg (s1.channels, s1.frameRate, s1.sampleWidth) s1 = .ok s1 :=
      syncSeg_self s1 hval
    have hs2 : AudioSegment.syncSeg (s1.channels, s1.frameRate, s1.sampleWidth) s2 = .ok s2 := by
      rw [hw, hf, hc]
      exact syncSeg_self s2 (hc ▸ hval)
    simp only [AudioSegment.Append, AudioSegment.syncList, hm, hs1, hs2] at h
    simp only [Except.ok.injEq] at h
    subst h
    rw [derive_eq s1 _ h3]
    simp
  · exfalso
    have hf1 : s1.ForkWithChannels s1.channels = .error .invalidChannels := by
      unfold AudioSegment.ForkWithChannels
      rw [if_pos hval]
    simp only [AudioSegment.Append, AudioSegment.syncList, AudioSegment.syncSeg, hm, hf1] at h
    exact Except.noConfusion h

/-- The `take x ++ (take y).drop x = take y` for `x ≤ y`. -/
theorem take_append_drop_take {α : Type} (l : List α) (x y : Nat) (hxy : x ≤ y) :
    l.take x ++ (l.take y).drop x = l.take y := by
  conv_rhs => rw [← List.take_append_drop x (l.take y)]
  rw [List.take_take, Nat.min_eq_left hxy]

/-- C7: the slice/append partition law.  For in-range positions
`0 ≤ a ≤ b ≤ Duration`, whenever the three slices and the append succeed,
`Append(Slice(0,a), Slice(a,b))` carries exactly the raw data of
`Slice(0,b)` — the equality is exact, because the silence-fill branch never
runs (claim C3): no tolerance is needed at the seam. -/
theorem c7_slice_append_partition (seg : AudioSegment) (a b : Int)
    (s1 s2 s12 s3 : AudioSegment)
    (hsw : seg.sampleWidth ≠ 3)
    (h0 : 0 ≤ a) (hab : a ≤ b) (hbD : b ≤ seg.Duration)
    (h1 : seg.Slice 0 a = .ok s1) (h2 : seg.Slice a b = .ok s2)
    (h3 : s1.Append [s2] = .ok s12) (h4 : seg.Slice 0 b = .ok s3) :
    s12.data = s3.data := by
  have hD := duration_nonneg seg
  obtain ⟨-, hA2, hA3⟩ := slice_ok_spec seg 0 a s1 hsw le_rfl h0 (by omega) h1
  obtain ⟨hB1, hB2, hB3⟩ := slice_ok_spec seg a b s2 hsw h0 hab hbD h2
  obtain ⟨-, -, hC3⟩ := slice_ok_spec seg 0 b s3 hsw le_rfl (by omega) hbD h4
  rw [parsePosition_zero] at hA2 hA3 hC3
  simp only [zero_mul, Int.toNat_zero, List.drop_zero] at hA2 hA3 hC3
  have hle1 : seg.parsePosition a * (seg.frameWidth : Int) ≤ (seg.data.length : Int) :=
    le_trans hB2 (min_le_right _ _)
  have hle2 : seg.parsePosition a * (seg.frameWidth : Int) ≤
      seg.parsePosition b * (seg.frameWidth : Int) := by
    apply mul_le_mul_of_nonneg_right (parsePosition_mono seg a b h0 hab)
      (Int.ofNat_nonneg _)
  have hminA : min (seg.parsePosition a * (seg.frameWidth : Int)) (seg.data.length : Int)
      = seg.parsePosition a * (seg.frameWidth : Int) := min_eq_left hle1
  rw [hminA] at hA3
  have hdata : s12.data = s1.data ++ s2.data := by
    apply append_two_data s1 s2 s12 _ _ _ _ h3
    · rw [hA3, hB3]
    · rw [hA3, hB3]
    · rw [hA3, hB3]
    · rw [hA3]
      exact hsw
  rw [hdata, hA3, hB3, hC3]
  simp only
  apply take_append_drop_take
  apply Int.toNat_le_toNat
  exact le_min hle2 hle1

/-- C7 witness: the partition law at a concrete 4-frame segment split at
1 ms and 3 ms. -/
theorem c7_slice_append_witness :
    partitionSeg.Slice 0 1 =
      .ok { sampleWidth := 1, frameRate := 1000, frameWidth := 1, channels := 1,
            data := [1] } ∧
    partitionSeg.Slice 1 3 =
      .ok { sampleWidth := 1, frameRate := 1000, frameWidth := 1, channels := 1,
            data := [2, 3] } ∧
    AudioSegment.Append
        { sampleWidth := 1, frameRate := 1000, frameWidth := 1, channels := 1,
          data := [1] }
        [{ sampleWidth := 1, frameRate := 1000, frameWidth := 1, channels := 1,
           data := [2, 3] }] =
      .ok { sampleWidth := 1, frameRate := 1000, frameWidth := 1, channels := 1,
            data := [1, 2, 3] } ∧
    partitionSeg.Slice 0 3 =
      .ok { sampleWidth := 1, frameRate := 1000, frameWidth := 1, channels := 1,
            data := [1, 2, 3] } ∧
    ({ sampleWidth := 1, frameRate := 1000, frameWidth := 1, channels := 1,
       data := [1, 2, 3] } : AudioSegment).data =
      ({ sampleWidth := 1, frameRate := 1000, frameWidth := 1, channels := 1,
         data := [1, 2, 3] } : AudioSegment).data :=
  ⟨by decide, by decide, by decide, by decide,
   c7_slice_append_partition partitionSeg 1 3
     { sampleWidth := 1, frameRate := 1000, frameWidth := 1, channels := 1, data := [1] }
     { sampleWidth := 1, frameRate := 1000, frameWidth := 1, channels := 1, data := [2, 3] }
     { sampleWidth := 1, frameRate := 1000, frameWidth := 1, channels := 1, data := [1, 2, 3] }
     { sampleWidth := 1, frameRate := 1000, frameWidth := 1, channels := 1, data := [1, 2, 3] }
     (by decide) (by decide) (by decide) (by decide)
     (by decide) (by decide) (by decide) (by decide)⟩

end Godub
